import Mathlib

set_option autoImplicit false

/-!
Shallow embedding of the principal directory management engine
(`crates/directory/src/backend/internal/manage.rs`).

The engine mutates an ordered key-value store through atomic write batches.
We model a store snapshot (`Store`), the batch operations (`Op`), and each
management operation as a pure function from the snapshot and the inputs to
either an error or the batch of operations it would commit.  An operation
that returns an error commits nothing: in the source every function builds
exactly one batch and writes it at the very end, so an early return leaves
the store untouched.
-/

namespace Manage

/-- Modelled from the spec: the principal type enumeration, in the order the
specification lists it (`Individual, Group, List, Role, Resource, Location,
Other, Domain, Tenant`); the enum itself lives outside the extracted source.
Named `PType` because `Type` is reserved in Lean. -/
inductive PType where
  | individual
  | group
  | list
  | role
  | resource
  | location
  | other
  | domain
  | tenant
deriving DecidableEq, Repr

/-- Numeric discriminant of a principal type (`Type as u8` in the source),
following the spec's declaration order. -/
def PType.toNat : PType → Nat
  | .individual => 0
  | .group => 1
  | .list => 2
  | .role => 3
  | .resource => 4
  | .location => 5
  | .other => 6
  | .domain => 7
  | .tenant => 8

/-- Modelled from the spec: inverse of the discriminant mapping
(`Type::from_u8`), defaulting to `Individual` on unknown bytes. -/
def PType.fromU8 : Nat → PType
  | 0 => .individual
  | 1 => .group
  | 2 => .list
  | 3 => .role
  | 4 => .resource
  | 5 => .location
  | 6 => .other
  | 7 => .domain
  | 8 => .tenant
  | _ => .individual

/-- Lowercase of a string, character by character (Rust `to_lowercase` on
the ASCII names the engine handles).  Defined structurally over the char
list so that concrete instances evaluate. -/
def lowerStr (s : String) : String := ⟨s.data.map Char.toLower⟩

/-- Check that `s` starts with `pre` (Rust `str::starts_with`), structurally
over the char lists. -/
def strStartsWith (s pre : String) : Bool := pre.data.isPrefixOf s.data

/-- Splitting of a char list at a separator character (Rust `split(c)`):
always yields at least one piece, and empty pieces are kept. -/
def splitOnCharList (c : Char) : List Char → List (List Char)
  | [] => [[]]
  | x :: xs =>
    if x == c then [] :: splitOnCharList c xs
    else
      match splitOnCharList c xs with
      | h :: t => (x :: h) :: t
      | [] => [[x]]

/-- Splitting of a char list at every character satisfying a predicate. -/
def splitOnPredList (p : Char → Bool) : List Char → List (List Char)
  | [] => [[]]
  | x :: xs =>
    if p x then [] :: splitOnPredList p xs
    else
      match splitOnPredList p xs with
      | h :: t => (x :: h) :: t
      | [] => [[x]]

/-- Denormalized `(id, type, tenant?)` triple stored as the value of the
name and email secondary indexes (`PrincipalInfo`). -/
structure PrincipalInfo where
  id : Nat
  typ : PType
  tenant : Option Nat := none
deriving DecidableEq, Repr

/-- Modelled from the spec: `PrincipalInfo::has_tenant_access` (declared
outside the extracted source).  Invariant 5 of the spec: a mutator operating
with `tenant_scope = T` may only reference principals whose tenant is `T`,
or tenant-less global roles. -/
def PrincipalInfo.hasTenantAccess (p : PrincipalInfo) (tenantId : Option Nat) : Bool :=
  match tenantId with
  | none => true
  | some t => p.tenant == some t || (p.typ == PType.role && p.tenant == none)

/-- Per-principal quota field: absent, a scalar, or a per-type vector. -/
inductive QuotaV where
  | unset
  | int (n : Nat)
  | list (l : List Nat)
deriving DecidableEq, Repr

/-- The root entity, with the fields of the source's generic field map that
the management engine reads or writes. -/
structure Principal where
  id : Nat := 0
  typ : PType := .individual
  name : String := ""
  tenant : Option Nat := none
  description : Option String := none
  secrets : List String := []
  emails : List String := []
  quota : QuotaV := .unset
  enabledPermissions : List Nat := []
  disabledPermissions : List Nat := []
deriving DecidableEq, Repr

/-- Fields of a principal addressed by the delta update protocol
(`PrincipalField`). -/
inductive PrincipalField where
  | name
  | typ
  | quota
  | description
  | secrets
  | emails
  | memberOf
  | members
  | tenant
  | roles
  | lists
  | enabledPermissions
  | disabledPermissions
deriving DecidableEq, Repr

/-- Update actions of the delta protocol (`PrincipalAction`). -/
inductive PrincipalAction where
  | set
  | addItem
  | removeItem
deriving DecidableEq, Repr

/-- Value shapes carried by a change (`PrincipalValue`). -/
inductive PrincipalValue where
  | string (s : String)
  | stringList (l : List String)
  | integer (n : Nat)
  | integerList (l : List Nat)
deriving DecidableEq, Repr

/-- One delta change (`PrincipalUpdate`). -/
structure PrincipalUpdate where
  action : PrincipalAction
  field : PrincipalField
  value : PrincipalValue
deriving DecidableEq, Repr

/-- Identifier accepted by the mutators (`QueryBy`); the credentials variant
is unreachable in the management engine and is omitted. -/
inductive QueryBy where
  | name (n : String)
  | id (n : Nat)
deriving DecidableEq, Repr

/-- Error taxonomy of the engine (section 7 of the spec; `err_missing`,
`err_exists`, `not_found`, `NotSupported`, `error` in the source). -/
inductive Err where
  | missingParameter (field : PrincipalField)
  | alreadyExists (field : PrincipalField) (value : String)
  | notFound (value : String)
  | notSupported
  | error (details : String) (reason : Option String)
deriving DecidableEq, Repr

/-- Document id inside a batch: a static id or a placeholder resolved to the
freshly created document id (`MaybeDynamicId`). -/
inductive DynId where
  | static (n : Nat)
  | dynamic (n : Nat)
deriving DecidableEq, Repr

/-- Typed key families of the directory (`DirectoryClass`). -/
inductive DKey where
  | principal (id : DynId)
  | nameToId (name : String)
  | emailToId (email : String)
  | memberOf (principalId : DynId) (memberOf : DynId)
  | members (principalId : DynId) (hasMember : DynId)
  | usedQuota (id : Nat)
deriving DecidableEq, Repr

/-- Values written by a batch operation.  `pinfo` stands for a serialized
`PrincipalInfo`; `dynPinfo` for a `DynamicPrincipalInfo` whose id is filled
in after document creation; `principal` for a serialized principal;
`dynPrincipal` for a principal serialized with the created document id;
`bytes` for a raw byte value (membership edge tags). -/
inductive DVal where
  | bytes (bs : List Nat)
  | pinfo (p : PrincipalInfo)
  | dynPinfo (typ : PType) (tenant : Option Nat)
  | principal (p : Principal)
  | dynPrincipal (p : Principal)
deriving DecidableEq, Repr

/-- Expected value of an `assert_value` clause: the key must be absent, or
must still hash to the loaded value (`HashedValue`; we identify the hash
with the value itself). -/
inductive AssertV where
  | absent
  | hashed (p : Principal)
deriving DecidableEq, Repr

/-- One batch operation (`BatchBuilder` ops). -/
inductive Op where
  | set (k : DKey) (v : DVal)
  | clear (k : DKey)
  | add (k : DKey) (delta : Int)
  | assertValue (k : DKey) (e : AssertV)
  | createDocument
deriving DecidableEq, Repr

/-- A snapshot of the key-value store, together with the external predicates
the engine consults.  `names` lists the `NameToId` entries in ascending key
order (the order a range scan visits them); `memberOfEdges` and
`membersEdges` list the two edge families, each entry carrying the raw value
bytes for `MemberOf`.  `rcpt`, `isLocalDomain` and `permFromName` are the
external recipient predicate, local-domain predicate and permission registry
(interfaces only, per the spec). -/
structure Store where
  names : List (String × PrincipalInfo) := []
  emails : List (String × PrincipalInfo) := []
  principals : Nat → Option Principal := fun _ => none
  memberOfEdges : List (Nat × Nat × List Nat) := []
  membersEdges : List (Nat × Nat) := []
  usedQuota : Nat → Int := fun _ => 0
  rcpt : String → Bool := fun _ => false
  isLocalDomain : String → Bool := fun _ => false
  permFromName : String → Option Nat := fun _ => none

/-- Point lookup of the `NameToId` index (`get_principal_info`). -/
def Store.getPrincipalInfo (s : Store) (name : String) : Option PrincipalInfo :=
  (s.names.find? (fun e => e.1 == name)).map (·.2)

/-- Point lookup returning only the id (`get_principal_id`). -/
def Store.getPrincipalId (s : Store) (name : String) : Option Nat :=
  (s.getPrincipalInfo name).map (·.id)

/-- One forward membership entry as returned by `get_member_of`. -/
structure MemberOfEntry where
  principalId : Nat
  typ : PType
deriving DecidableEq, Repr

/-- Range scan of the `MemberOf` family for one principal
(`get_member_of`): the peer id is taken from the key, the edge type from the
first byte of the value, defaulting to `Group` when the value is empty. -/
def Store.getMemberOf (s : Store) (principalId : Nat) : List MemberOfEntry :=
  s.memberOfEdges.filterMap fun e =>
    if e.1 == principalId then
      some ⟨e.2.1, (e.2.2.head?.map PType.fromU8).getD PType.group⟩
    else none

/-- Range scan of the `Members` family for one principal (`get_members`). -/
def Store.getMembers (s : Store) (principalId : Nat) : List Nat :=
  s.membersEdges.filterMap fun e =>
    if e.1 == principalId then some e.2 else none

/-- Modelled from the spec: secret classifiers (`SpecialSecrets`, declared
outside the extracted source).  An OTP-auth secret is an `otpauth://` URI;
an app password carries the app-password marker prefix; a plain password is
anything else. -/
def isOtpAuth (s : String) : Bool := strStartsWith s "otpauth://"

/-- Modelled from the spec: app-password classifier, see `isOtpAuth`. -/
def isAppPassword (s : String) : Bool := strStartsWith s "$app$"

/-- Modelled from the spec: plain-password classifier, see `isOtpAuth`. -/
def isPassword (s : String) : Bool := !(isOtpAuth s) && !(isAppPassword s)

/-- Built-in role ids (`ROLE_ADMIN`, `ROLE_TENANT_ADMIN`, `ROLE_USER`);
modelled from the spec as distinct wire constants. -/
def ROLE_ADMIN : Nat := 4294967293

/-- Built-in role id for `tenant-admin`, see `ROLE_ADMIN`. -/
def ROLE_TENANT_ADMIN : Nat := 4294967294

/-- Built-in role id for `user`, see `ROLE_ADMIN`. -/
def ROLE_USER : Nat := 4294967292

/-- Role-name fallback (`PrincipalField::map_internal_role_name`): inside a
`Roles` field the literal names `admin`, `tenant-admin` and `user` resolve
to the built-in role ids. -/
def PrincipalField.mapInternalRoleName (f : PrincipalField) (name : String) : Option Nat :=
  match f, name with
  | .roles, "admin" => some ROLE_ADMIN
  | .roles, "tenant-admin" => some ROLE_TENANT_ADMIN
  | .roles, "user" => some ROLE_USER
  | _, _ => none

/-- Role-name fallback returning a `PrincipalInfo`
(`PrincipalField::map_internal_roles`). -/
def PrincipalField.mapInternalRoles (f : PrincipalField) (name : String) : Option PrincipalInfo :=
  (f.mapInternalRoleName name).map fun roleId => ⟨roleId, PType.role, none⟩

/-- Modelled from the spec: display name of a principal field
(`PrincipalField::as_str`, declared outside the extracted source); only used
inside error message strings. -/
def PrincipalField.asStr : PrincipalField → String
  | .name => "name"
  | .typ => "type"
  | .quota => "quota"
  | .description => "description"
  | .secrets => "secrets"
  | .emails => "emails"
  | .memberOf => "memberOf"
  | .members => "members"
  | .tenant => "tenant"
  | .roles => "roles"
  | .lists => "lists"
  | .enabledPermissions => "enabledPermissions"
  | .disabledPermissions => "disabledPermissions"

/-- Modelled from the spec: display name of a principal type
(`Type::as_str`, declared outside the extracted source); only used inside
error message strings. -/
def PType.asStr : PType → String
  | .individual => "individual"
  | .group => "group"
  | .list => "list"
  | .role => "role"
  | .resource => "resource"
  | .location => "location"
  | .other => "other"
  | .domain => "domain"
  | .tenant => "tenant"

/-- Domain part of a principal name or email address
(`name.split('@').nth(1)` in the source). -/
def domainPart (name : String) : Option String :=
  (((splitOnCharList '@' name.data).map (fun l => (⟨l⟩ : String))))[1]?

/-- The forward+reverse pair of edge writes the source always emits
together: `set MemberOf(x, y) = [t]` and `set Members(y, x) = []`. -/
def edgeSetPair (x y : DynId) (t : PType) : List Op :=
  [.set (.memberOf x y) (.bytes [t.toNat]), .set (.members y x) (.bytes [])]

/-- The forward+reverse pair of edge clears the source always emits
together: `clear MemberOf(x, y)` and `clear Members(y, x)`. -/
def edgeClearPair (x y : DynId) : List Op :=
  [.clear (.memberOf x y), .clear (.members y x)]

/-- Allowed principal types for `Members` edges, by the owning principal's
type (the table inside `update_principal`). -/
def allowedMemberTypesFor : PType → List PType
  | .group => [.individual, .group]
  | .resource => [.resource]
  | .location => [.location, .resource, .individual, .group, .other]
  | .list => [.individual, .group]
  | .other | .domain | .tenant | .individual => []
  | .role => [.role]

/-- Expected principal type of a `MemberOf`, `Lists` or `Roles` reference
(the `expected_type` match inside `update_principal`; other fields are
unreachable there). -/
def expectedMemberOfType : PrincipalField → PType
  | .memberOf => .group
  | .lists => .list
  | .roles => .role
  | _ => .group

/-- Error raised when a `MemberOf`, `Lists` or `Roles` reference has the
wrong principal type. -/
def invalidMemberOfErr (field : PrincipalField) (member : String) : Err :=
  .error ("Invalid " ++ field.asStr ++ " value")
    (some ("Principal \"" ++ member ++ "\" is not a " ++ (expectedMemberOfType field).asStr ++ "."))

/-- Error raised when a `Members` reference has a type outside the allowed
set. -/
def invalidMembersErr (member : String) (allowed : List PType) : Err :=
  .error "Invalid members value"
    (some ("Principal \"" ++ member ++ "\" is not one of " ++
      String.intercalate ", " (allowed.map PType.asStr) ++ "."))

/-- Error raised when a permission name is not in the registry. -/
def invalidPermissionErr (field : PrincipalField) (name : String) : Err :=
  .error ("Invalid " ++ field.asStr ++ " value")
    (some ("Permission \"" ++ name ++ "\" is invalid"))

/-- Resolution loop of the `Set MemberOf/Lists/Roles` arm of
`update_principal`: resolve each name (tenant-filtered, with the built-in
role fallback), enforce the expected type, emit a forward+reverse edge pair
for ids not already in `curMemberOf`, and collect the new id list. -/
def resolveMemberOfAdds (s : Store) (tenantId : Option Nat) (field : PrincipalField)
    (principalId : Nat) (curMemberOf : List Nat) :
    List String → Except Err (List Op × List Nat)
  | [] => .ok ([], [])
  | m :: rest =>
    match ((s.getPrincipalInfo m).filter (fun p => p.hasTenantAccess tenantId)).orElse
        (fun _ => field.mapInternalRoles m) with
    | none => .error (.notFound m)
    | some info =>
      if info.typ ≠ expectedMemberOfType field then
        .error (invalidMemberOfErr field m)
      else
        match resolveMemberOfAdds s tenantId field principalId curMemberOf rest with
        | .error e => .error e
        | .ok (ops, ids) =>
          .ok ((if curMemberOf.contains info.id then []
                else edgeSetPair (.static principalId) (.static info.id) info.typ) ++ ops,
               info.id :: ids)

/-- Edge clears of the `Set MemberOf/Lists/Roles` arm: for every current
member-of id absent from the new list, clear the forward+reverse pair. -/
def memberOfRemovals (principalId : Nat) (old newIds : List Nat) : List Op :=
  (old.filter (fun i => !newIds.contains i)).flatMap
    (fun i => edgeClearPair (.static principalId) (.static i))

/-- Resolution loop of the `Set Members` arm of `update_principal`:
resolve each name (tenant-filtered, no role fallback), enforce the
allowed-member-type table, emit the reversed forward+reverse edge pair for
ids not already in `curMembers`, and collect the new id list. -/
def resolveMembersAdds (s : Store) (tenantId : Option Nat) (allowed : List PType)
    (principalId : Nat) (curMembers : List Nat) :
    List String → Except Err (List Op × List Nat)
  | [] => .ok ([], [])
  | m :: rest =>
    match (s.getPrincipalInfo m).filter (fun p => p.hasTenantAccess tenantId) with
    | none => .error (.notFound m)
    | some info =>
      if !allowed.contains info.typ then
        .error (invalidMembersErr m allowed)
      else
        match resolveMembersAdds s tenantId allowed principalId curMembers rest with
        | .error e => .error e
        | .ok (ops, ids) =>
          .ok ((if curMembers.contains info.id then []
                else edgeSetPair (.static info.id) (.static principalId) info.typ) ++ ops,
               info.id :: ids)

/-- Edge clears of the `Set Members` arm: for every current member id absent
from the new list, clear the reversed forward+reverse pair. -/
def membersRemovals (principalId : Nat) (old newIds : List Nat) : List Op :=
  (old.filter (fun i => !newIds.contains i)).flatMap
    (fun i => edgeClearPair (.static i) (.static principalId))

/-- Validation loop of the `Set Emails` arm of `update_principal`: for each
email not already on the principal, reject existing recipients, require a
local domain, and emit the `EmailToId` index write. -/
def setEmailAdds (s : Store) (pinfoEmail : PrincipalInfo) (curEmails : List String) :
    List String → Except Err (List Op)
  | [] => .ok []
  | e :: rest =>
    if curEmails.contains e then setEmailAdds s pinfoEmail curEmails rest
    else if s.rcpt e then .error (.alreadyExists .emails e)
    else
      let res :=
        match setEmailAdds s pinfoEmail curEmails rest with
        | .error er => Except.error er
        | .ok ops => .ok (Op.set (.emailToId e) (.pinfo pinfoEmail) :: ops)
      match domainPart e with
      | some d => if !s.isLocalDomain d then .error (.notFound d) else res
      | none => res

/-- Dedup-accumulating permission-name mapping of the
`Set EnabledPermissions/DisabledPermissions` arm. -/
def mapPermissionSet (s : Store) (field : PrincipalField) (acc : List Nat) :
    List String → Except Err (List Nat)
  | [] => .ok acc
  | n :: rest =>
    match s.permFromName n with
    | none => .error (invalidPermissionErr field n)
    | some p => mapPermissionSet s field (if acc.contains p then acc else acc ++ [p]) rest

/-- Mutable state threaded through the change-processing loop of
`update_principal`: the in-memory principal, the forward and reverse
membership id lists, the serialized name-index payload, the per-call cache
of validated domains, and the batch operations accumulated so far. -/
structure UpdState where
  principal : Principal
  memberOf : List Nat
  members : List Nat
  pinfoName : PrincipalInfo
  validDomains : List String
  ops : List Op
deriving Repr

/-- One iteration of the change dispatch of `update_principal`, translated
arm by arm from the source's `match (change.action, change.field,
change.value)`.  A guard failure on an arm falls through to the wildcard,
which returns `NotSupported`. -/
def applyChange (s : Store) (tenantId : Option Nat) (principalId : Nat)
    (usedQuota : Option Int) (allowed : List PType) (pinfoEmail : PrincipalInfo)
    (st : UpdState) (c : PrincipalUpdate) : Except Err UpdState :=
  match c.action, c.field, c.value with
  | .set, .name, .string newName =>
    let nn := lowerStr newName
    if st.principal.name == nn then .ok st
    else
      let vd :=
        if tenantId.isSome then
          match domainPart nn with
          | some d =>
            if ((s.getPrincipalInfo d).filter
                (fun v => v.typ == PType.domain && v.hasTenantAccess tenantId)).isSome then
              if st.validDomains.contains d then st.validDomains else st.validDomains ++ [d]
            else st.validDomains
          | none => st.validDomains
        else st.validDomains
      if tenantId.isSome && vd.isEmpty then
        .error (.error "Invalid principal name" (some "Principal name must include a valid domain"))
      else if (s.getPrincipalId nn).isSome then
        .error (.alreadyExists .name nn)
      else
        .ok { st with
          principal := { st.principal with name := nn }
          validDomains := vd
          ops := st.ops ++ [.clear (.nameToId st.principal.name), .set (.nameToId nn) (.pinfo st.pinfoName)] }
  | .set, .tenant, .string tenantName =>
    if tenantId.isSome then .error .notSupported
    else if !(tenantName == "") then
      match s.getPrincipalInfo tenantName with
      | none => .error (.notFound tenantName)
      | some tinfo =>
        if tinfo.typ ≠ PType.tenant then
          .error (.error "Not a tenant" (some ("Principal \"" ++ tenantName ++ "\" is not a tenant")))
        else
          match st.principal.tenant with
          | some oldTenant =>
            if oldTenant ≠ tinfo.id then
              let quotaOps :=
                match usedQuota with
                | some q => [Op.add (.usedQuota oldTenant) (-q), Op.add (.usedQuota tinfo.id) q]
                | none => []
              let p := { st.principal with tenant := some tinfo.id }
              let pin : PrincipalInfo := ⟨principalId, p.typ, some tinfo.id⟩
              .ok { st with
                    principal := p
                    pinfoName := pin
                    ops := st.ops ++ quotaOps ++ [.set (.nameToId p.name) (.pinfo pin)] }
            else .ok st
          | none => .ok st
    else
      match st.principal.tenant with
      | some oldTenant =>
        let quotaOps :=
          match usedQuota with
          | some q => [Op.add (.usedQuota oldTenant) (-q)]
          | none => []
        let p := { st.principal with tenant := none }
        let pin : PrincipalInfo := ⟨principalId, p.typ, none⟩
        .ok { st with
              principal := p
              pinfoName := pin
              ops := st.ops ++ quotaOps ++ [.set (.nameToId p.name) (.pinfo pin)] }
      | none => .ok st
  | .set, .secrets, .string v =>
    .ok { st with principal := { st.principal with secrets := [v] } }
  | .set, .secrets, .stringList l =>
    .ok { st with principal := { st.principal with secrets := l } }
  | .addItem, .secrets, .string secret =>
    if st.principal.secrets.contains secret then .ok st
    else if isOtpAuth secret then
      .ok { st with principal := { st.principal with secrets := secret :: st.principal.secrets } }
    else
      .ok { st with principal := { st.principal with secrets := st.principal.secrets ++ [secret] } }
  | .removeItem, .secrets, .string secret =>
    if isAppPassword secret || isOtpAuth secret then
      .ok { st with principal := { st.principal with
        secrets := st.principal.secrets.filter (fun v => !(v == secret) && !(strStartsWith v secret)) } }
    else if !(secret == "") then
      .ok { st with principal := { st.principal with
        secrets := st.principal.secrets.filter (fun v => !(v == secret)) } }
    else
      .ok { st with principal := { st.principal with
        secrets := st.principal.secrets.filter (fun v => !(isPassword v)) } }
  | .set, .description, .string d =>
    if !(d == "") then
      .ok { st with principal := { st.principal with description := some d } }
    else
      .ok { st with principal := { st.principal with description := none } }
  | .set, .quota, .integer q =>
    if st.principal.typ == PType.individual || st.principal.typ == PType.group
        || st.principal.typ == PType.tenant then
      .ok { st with principal := { st.principal with quota := .int q } }
    else .error .notSupported
  | .set, .quota, .string q =>
    if (st.principal.typ == PType.individual || st.principal.typ == PType.group
        || st.principal.typ == PType.tenant) && q == "" then
      .ok { st with principal := { st.principal with quota := .unset } }
    else .error .notSupported
  | .set, .quota, .integerList qs =>
    if st.principal.typ == PType.tenant && qs.length ≤ PType.other.toNat + 1 then
      .ok { st with principal := { st.principal with quota := .list qs } }
    else .error .notSupported
  | .set, .emails, .stringList emails =>
    let emailsL := emails.map lowerStr
    match setEmailAdds s pinfoEmail st.principal.emails emailsL with
    | .error e => .error e
    | .ok addOps =>
      let clearOps := (st.principal.emails.filter (fun e => !emailsL.contains e)).map
        (fun e => Op.clear (.emailToId e))
      .ok { st with
            principal := { st.principal with emails := emailsL }
            ops := st.ops ++ addOps ++ clearOps }
  | .addItem, .emails, .string email =>
    let email := lowerStr email
    if st.principal.emails.contains email then .ok st
    else if s.rcpt email then .error (.alreadyExists .emails email)
    else
      let res := Except.ok { st with
        principal := { st.principal with emails := st.principal.emails ++ [email] }
        ops := st.ops ++ [Op.set (.emailToId email) (.pinfo pinfoEmail)] }
      match domainPart email with
      | some d => if !s.isLocalDomain d then .error (.notFound d) else res
      | none => res
  | .removeItem, .emails, .string email =>
    let email := lowerStr email
    if st.principal.emails.contains email then
      .ok { st with
        principal := { st.principal with emails := st.principal.emails.filter (fun v => !(v == email)) }
        ops := st.ops ++ [.clear (.emailToId email)] }
    else .ok st
  | .set, .memberOf, .stringList ms | .set, .lists, .stringList ms | .set, .roles, .stringList ms =>
    match resolveMemberOfAdds s tenantId c.field principalId st.memberOf ms with
    | .error e => .error e
    | .ok (addOps, newIds) =>
      .ok { st with
            memberOf := newIds
            ops := st.ops ++ addOps ++ memberOfRemovals principalId st.memberOf newIds }
  | .addItem, .memberOf, .string m | .addItem, .lists, .string m | .addItem, .roles, .string m =>
    match ((s.getPrincipalInfo m).filter (fun p => p.hasTenantAccess tenantId)).orElse
        (fun _ => c.field.mapInternalRoles m) with
    | none => .error (.notFound m)
    | some info =>
      if st.memberOf.contains info.id then .ok st
      else if info.typ ≠ expectedMemberOfType c.field then
        .error (invalidMemberOfErr c.field m)
      else
        .ok { st with
              memberOf := st.memberOf ++ [info.id]
              ops := st.ops ++ edgeSetPair (.static principalId) (.static info.id) info.typ }
  | .removeItem, .memberOf, .string m | .removeItem, .lists, .string m
  | .removeItem, .roles, .string m =>
    match (s.getPrincipalId m).orElse (fun _ => c.field.mapInternalRoleName m) with
    | none => .ok st
    | some memberId =>
      if st.memberOf.contains memberId then
        .ok { st with
              memberOf := st.memberOf.erase memberId
              ops := st.ops ++ edgeClearPair (.static principalId) (.static memberId) }
      else .ok st
  | .set, .members, .stringList ms =>
    match resolveMembersAdds s tenantId allowed principalId st.members ms with
    | .error e => .error e
    | .ok (addOps, newIds) =>
      .ok { st with
            members := newIds
            ops := st.ops ++ addOps ++ membersRemovals principalId st.members newIds }
  | .addItem, .members, .string m =>
    match (s.getPrincipalInfo m).filter (fun p => p.hasTenantAccess tenantId) with
    | none => .error (.notFound m)
    | some info =>
      if st.members.contains info.id then .ok st
      else if !allowed.contains info.typ then
        .error (invalidMembersErr m allowed)
      else
        .ok { st with
              members := st.members ++ [info.id]
              ops := st.ops ++ edgeSetPair (.static info.id) (.static principalId) info.typ }
  | .removeItem, .members, .string m =>
    match s.getPrincipalId m with
    | none => .ok st
    | some memberId =>
      if st.members.contains memberId then
        .ok { st with
              members := st.members.erase memberId
              ops := st.ops ++ edgeClearPair (.static memberId) (.static principalId) }
      else .ok st
  | .set, .enabledPermissions, .stringList names | .set, .disabledPermissions, .stringList names =>
    match mapPermissionSet s c.field [] names with
    | .error e => .error e
    | .ok perms =>
      if c.field == PrincipalField.enabledPermissions then
        .ok { st with principal := { st.principal with enabledPermissions := perms } }
      else
        .ok { st with principal := { st.principal with disabledPermissions := perms } }
  | .addItem, .enabledPermissions, .string n | .addItem, .disabledPermissions, .string n =>
    match s.permFromName n with
    | none => .error (invalidPermissionErr c.field n)
    | some p =>
      if c.field == PrincipalField.enabledPermissions then
        .ok { st with principal := { st.principal with
          enabledPermissions := st.principal.enabledPermissions ++ [p] } }
      else
        .ok { st with principal := { st.principal with
          disabledPermissions := st.principal.disabledPermissions ++ [p] } }
  | .removeItem, .enabledPermissions, .string n | .removeItem, .disabledPermissions, .string n =>
    match s.permFromName n with
    | none => .error (invalidPermissionErr c.field n)
    | some p =>
      if c.field == PrincipalField.enabledPermissions then
        .ok { st with principal := { st.principal with
          enabledPermissions := st.principal.enabledPermissions.filter (fun v => !(v == p)) } }
      else
        .ok { st with principal := { st.principal with
          disabledPermissions := st.principal.disabledPermissions.filter (fun v => !(v == p)) } }
  | _, _, _ => .error .notSupported

/-- The optimistic-lock trigger of `update_principal`: the change list is
non-empty and not every change targets one of the four membership fields. -/
def needLock (changes : List PrincipalUpdate) : Bool :=
  !changes.isEmpty && !changes.all (fun c =>
    c.field == PrincipalField.memberOf || c.field == PrincipalField.members ||
    c.field == PrincipalField.lists || c.field == PrincipalField.roles)

/-- Sequential change processing of `update_principal`: fold `applyChange`
over the change list, aborting on the first error. -/
def processChanges (s : Store) (tenantId : Option Nat) (principalId : Nat)
    (usedQuota : Option Int) (allowed : List PType) (pinfoEmail : PrincipalInfo) :
    UpdState → List PrincipalUpdate → Except Err UpdState
  | st, [] => .ok st
  | st, c :: rest =>
    match applyChange s tenantId principalId usedQuota allowed pinfoEmail st c with
    | .error e => .error e
    | .ok st' => processChanges s tenantId principalId usedQuota allowed pinfoEmail st' rest

/-- Identifier resolution shared by the mutators: a name goes through the
`NameToId` index and fails `NotFound`; an id is taken as is. -/
def resolveById (s : Store) (qb : QueryBy) : Except Err Nat :=
  match qb with
  | .name n =>
    match s.getPrincipalId n with
    | some principalId => .ok principalId
    | none => .error (.notFound n)
  | .id principalId => .ok principalId

/-- The update path (`update_principal`): resolve the identifier, load the
principal and its membership lists, arm the optimistic lock when the lock
trigger fires, prefetch the used quota for tenant transfers, process the
changes, and append the principal write-back exactly when the lock was
armed.  On success the returned list is the committed batch. -/
def updatePrincipal (s : Store) (qb : QueryBy) (changes : List PrincipalUpdate)
    (tenantId : Option Nat) : Except Err (List Op) :=
  match resolveById s qb with
  | .error e => .error e
  | .ok principalId =>
    match s.principals principalId with
    | none => .error (.notFound (toString principalId))
    | some principal =>
      let memberOf := (s.getMemberOf principalId).map (·.principalId)
      let members := s.getMembers principalId
      let pinfoName : PrincipalInfo := ⟨principalId, principal.typ, principal.tenant⟩
      let pinfoEmail : PrincipalInfo := ⟨principalId, principal.typ, none⟩
      let lock := needLock changes
      let usedQuota :=
        if tenantId == none && changes.any (fun c => c.field == PrincipalField.tenant) then
          if s.usedQuota principalId > 0 then some (s.usedQuota principalId) else none
        else none
      let allowed := allowedMemberTypesFor principal.typ
      let st0 : UpdState := ⟨principal, memberOf, members, pinfoName, [], []⟩
      match processChanges s tenantId principalId usedQuota allowed pinfoEmail st0 changes with
      | .error e => .error e
      | .ok st =>
        .ok ((if lock then [Op.assertValue (.principal (.static principalId)) (.hashed principal)]
              else [])
          ++ st.ops
          ++ (if lock then [Op.set (.principal (.static principalId)) (.principal st.principal)]
              else []))

/-- Modelled from the spec: substring filter over a principal's string
fields (`Principal::find_str`, declared outside the extracted source;
implementation-defined per the spec).  A token matches when it occurs in the
name, the description or an email address. -/
def strContainsTok (hay tok : String) : Bool :=
  decide (tok.data <:+: hay.data)

/-- Token search over the string fields, see `strContainsTok`. -/
def Principal.findStr (p : Principal) (token : String) : Bool :=
  strContainsTok p.name token
    || (match p.description with
        | some d => strContainsTok d token
        | none => false)
    || p.emails.any (fun e => strContainsTok e token)

/-- Filter pass of `list_principals`: load each kept principal and require
every token to be found by `find_str`; a missing principal record fails
`NotFound`. -/
def filterLoad (s : Store) (toks : List String) :
    List (Nat × String) → Except Err (List String)
  | [] => .ok []
  | (principalId, name) :: rest =>
    match s.principals principalId with
    | none => .error (.notFound (toString principalId))
    | some p =>
      match filterLoad s toks rest with
      | .error e => .error e
      | .ok l => .ok (if toks.all (fun t => p.findStr t) then name :: l else l)

/-- The listing path (`list_principals`): scan the `NameToId` entries in
order, keep those matching the type filter and the tenant scope, then apply
the whitespace-token text filter when one is given. -/
def listPrincipals (s : Store) (filt : Option String) (typ : Option PType)
    (tenantId : Option Nat) : Except Err (List String) :=
  let results := s.names.filterMap fun e =>
    if (typ.map (fun t => e.2.typ == t)).getD true && e.2.hasTenantAccess tenantId then
      some (e.2.id, e.1)
    else none
  match filt with
  | none => .ok (results.map (·.2))
  | some f =>
    let toks := (((splitOnPredList Char.isWhitespace f.data).map
      (fun l => (⟨l⟩ : String))).filter (fun t => !(t == ""))).map lowerStr
    filterLoad s toks results

/-- Sample string of the "Tenant has members" error: up to five member
names, with an overflow count for the rest. -/
def tenantMembersSample (tenantMembers : List String) : String :=
  if tenantMembers.length > 5 then
    String.intercalate ", " (tenantMembers.take 5) ++ " and "
      ++ toString (tenantMembers.length - 5) ++ " others"
  else
    String.intercalate ", " tenantMembers

/-- The delete path (`delete_principal`): resolve and load the principal;
refund the used quota of an individual or group into its tenant counter;
refuse to delete a tenant that still has members; then emit one batch
clearing the name index, the principal record, the quota counter, the email
index entries, and both directions of every incident membership edge.  The
external teardown calls (`blob_hash_unlink_account`, `acl_revoke_all`,
`purge_account`) are interfaces only and are modelled as succeeding. -/
def deletePrincipal (s : Store) (qb : QueryBy) : Except Err (List Op) :=
  match resolveById s qb with
  | .error e => .error e
  | .ok principalId =>
    match s.principals principalId with
    | none => .error (.notFound (toString principalId))
    | some principal =>
      let guarded : Except Err (List Op) :=
        match principal.typ with
        | .individual | .group =>
          match principal.tenant with
          | some tenantId =>
            if s.usedQuota principalId > 0 then
              .ok [Op.add (.usedQuota tenantId) (-(s.usedQuota principalId))]
            else .ok []
          | none => .ok []
        | .tenant =>
          match listPrincipals s none none (some principal.id) with
          | .error e => .error e
          | .ok tenantMembers =>
            if !tenantMembers.isEmpty then
              .error (.error "Tenant has members"
                (some ("Tenant must have no members to be deleted: Found: "
                  ++ tenantMembersSample tenantMembers)))
            else .ok []
        | _ => .ok []
      match guarded with
      | .error e => .error e
      | .ok quotaOps =>
        .ok (quotaOps
          ++ [Op.clear (.nameToId principal.name),
              Op.clear (.principal (.static principalId)),
              Op.clear (.usedQuota principalId)]
          ++ principal.emails.map (fun e => Op.clear (.emailToId e))
          ++ (s.getMemberOf principalId).flatMap
              (fun m => edgeClearPair (.static principalId) (.static m.principalId))
          ++ (s.getMembers principalId).flatMap
              (fun memberId => edgeClearPair (.static memberId) (.static principalId)))

/-- Input of the creation path: the partially populated principal handed to
`create_principal`, with the reference fields still as name strings. -/
structure CreateRequest where
  typ : PType := .individual
  name : String := ""
  tenant : Option String := none
  description : Option String := none
  secrets : List String := []
  emails : List String := []
  quota : QuotaV := .unset
  memberOf : List String := []
  members : List String := []
  lists : List String := []
  roles : List String := []
  enabledPermissions : List String := []
  disabledPermissions : List String := []
deriving DecidableEq, Repr

/-- Reference resolution loop of `create_principal`: each name must resolve
to a principal of the expected type visible under the tenant scope, with the
built-in role fallback; a miss fails `NotFound`. -/
def resolveCreateList (s : Store) (tenantId : Option Nat) (field : PrincipalField)
    (expected : Option PType) : List String → Except Err (List PrincipalInfo)
  | [] => .ok []
  | n :: rest =>
    match ((s.getPrincipalInfo n).filter (fun v =>
        (expected.map (fun t => v.typ == t)).getD true && v.hasTenantAccess tenantId)).orElse
        (fun _ => field.mapInternalRoles n) with
    | none => .error (.notFound n)
    | some info =>
      match resolveCreateList s tenantId field expected rest with
      | .error e => .error e
      | .ok l => .ok (info :: l)

/-- Email validation loop of `create_principal`: lowercase each address,
reject existing recipients, and require each domain seen for the first time
to resolve to an accessible `Domain` principal.  Returns the lowercased
addresses and the final validated-domain set. -/
def createEmailsCheck (s : Store) (tenantId : Option Nat) (validDomains : List String) :
    List String → Except Err (List String × List String)
  | [] => .ok ([], validDomains)
  | e :: rest =>
    let e := lowerStr e
    if s.rcpt e then .error (.alreadyExists .emails e)
    else
      match domainPart e with
      | some d =>
        if validDomains.contains d then
          (createEmailsCheck s tenantId validDomains rest).map (fun r => (e :: r.1, r.2))
        else
          if ((s.getPrincipalInfo d).filter
              (fun v => v.typ == PType.domain && v.hasTenantAccess tenantId)).isSome then
            (createEmailsCheck s tenantId (validDomains ++ [d]) rest).map (fun r => (e :: r.1, r.2))
          else .error (.notFound d)
      | none => (createEmailsCheck s tenantId validDomains rest).map (fun r => (e :: r.1, r.2))

/-- The creation path (`create_principal`): validate the name and, under a
tenant scope, its domain; enforce name uniqueness; resolve the four
reference lists and the permission names; validate the emails; resolve the
tenant; then emit one batch creating the document, asserting the name
absent, and writing the principal record, the name and email index entries,
and both directions of every requested membership edge. -/
def createPrincipal (s : Store) (req : CreateRequest) (tenantId : Option Nat) :
    Except Err (List Op) :=
  let name := lowerStr req.name
  if name == "" then .error (.missingParameter .name)
  else
    let validDomains : List String :=
      if tenantId.isSome then
        match domainPart name with
        | some d =>
          if ((s.getPrincipalInfo d).filter
              (fun v => v.typ == PType.domain && v.hasTenantAccess tenantId)).isSome then [d]
          else []
        | none => []
      else []
    if tenantId.isSome && validDomains.isEmpty then
      .error (.error "Invalid principal name" (some "Principal name must include a valid domain"))
    else if (s.getPrincipalId name).isSome then
      .error (.alreadyExists .name name)
    else
      match resolveCreateList s tenantId .members none req.members with
      | .error e => .error e
      | .ok members =>
      match resolveCreateList s tenantId .memberOf (some .group) req.memberOf with
      | .error e => .error e
      | .ok memberOfGroups =>
      match resolveCreateList s tenantId .lists (some .list) req.lists with
      | .error e => .error e
      | .ok memberOfLists =>
      match resolveCreateList s tenantId .roles (some .role) req.roles with
      | .error e => .error e
      | .ok memberOfRoles =>
      match mapPermissionSet s .enabledPermissions [] req.enabledPermissions with
      | .error e => .error e
      | .ok enabled =>
      match mapPermissionSet s .disabledPermissions [] req.disabledPermissions with
      | .error e => .error e
      | .ok disabled =>
      match createEmailsCheck s tenantId validDomains req.emails with
      | .error e => .error e
      | .ok (emailsL, _) =>
        let tenantResolved : Except Err (Option Nat) :=
          match tenantId with
          | some t => .ok (some t)
          | none =>
            match req.tenant with
            | some tenantName =>
              match (s.getPrincipalInfo tenantName).filter
                  (fun v => v.typ == PType.tenant) with
              | some tinfo => .ok (some tinfo.id)
              | none => .error (.notFound tenantName)
            | none => .ok none
        match tenantResolved with
        | .error e => .error e
        | .ok finalTenant =>
          let memberOf := memberOfGroups ++ memberOfLists ++ memberOfRoles
          let builtPrincipal : Principal :=
            { typ := req.typ
              name := name
              tenant := tenantId
              description := req.description
              secrets := req.secrets
              emails := emailsL
              quota := req.quota
              enabledPermissions := enabled
              disabledPermissions := disabled }
          .ok ([Op.createDocument,
                Op.assertValue (.nameToId name) .absent,
                Op.set (.principal (.dynamic 0)) (.dynPrincipal builtPrincipal),
                Op.set (.nameToId name) (.dynPinfo req.typ finalTenant)]
            ++ emailsL.map (fun e => Op.set (.emailToId e) (.dynPinfo req.typ none))
            ++ memberOf.flatMap (fun m => edgeSetPair (.dynamic 0) (.static m.id) m.typ)
            ++ members.flatMap (fun m => edgeSetPair (.static m.id) (.dynamic 0) m.typ))

/-- Result of one attempted batch commit as seen by
`get_or_create_principal_id`: either the created document id, or a store
error that is or is not an assertion failure.  The `tag` distinguishes
errors so that "the error is returned to the caller" is expressible. -/
structure StoreErr where
  isAssert : Bool
  tag : Nat
deriving DecidableEq, Repr

/-- The batch committed by one attempt of `get_or_create_principal_id`:
assert `NameToId[name]` absent, create the document, and write the name
index entry and the fresh principal record. -/
def getOrCreateBatch (name : String) (typ : PType) : List Op :=
  [.assertValue (.nameToId name) .absent,
   .createDocument,
   .set (.nameToId name) (.dynPinfo typ none),
   .set (.principal (.dynamic 0)) (.dynPrincipal { typ := typ, name := name })]

/-- The retry loop of `get_or_create_principal_id`, over two oracles giving,
for each iteration, the outcome of the `NameToId[name]` lookup and of
committing a given batch.  The oracles abstract the concurrently evolving
store.  The first component of the result is the returned value, the second
the number of commits attempted; `tryCount` is the source's retry
counter. -/
def getOrCreateLoop (name : String) (typ : PType) (lookups : Nat → Option Nat)
    (commits : List Op → Nat → Except StoreErr Nat)
    (tryCount : Nat) : Except StoreErr Nat × Nat :=
  match lookups tryCount with
  | some principalId => (.ok principalId, tryCount)
  | none =>
    match commits (getOrCreateBatch name typ) tryCount with
    | .ok principalId => (.ok principalId, tryCount + 1)
    | .error e =>
      if e.isAssert && tryCount < 3 then getOrCreateLoop name typ lookups commits (tryCount + 1)
      else (.error e, tryCount + 1)
termination_by 4 - tryCount
decreasing_by
  rename_i h
  have h3 : tryCount < 3 := of_decide_eq_true (Bool.and_eq_true _ _ ▸ h).2
  omega

/-- The public entry (`get_or_create_principal_id`): lowercase the name and
run the retry loop starting at attempt 0. -/
def getOrCreatePrincipalId (name : String) (typ : PType) (lookups : Nat → Option Nat)
    (commits : List Op → Nat → Except StoreErr Nat) : Except StoreErr Nat × Nat :=
  getOrCreateLoop (lowerStr name) typ lookups commits 0

/-- Resolution of a document id placeholder once the store has assigned the
created id. -/
def DynId.resolve (d : DynId) (newId : Nat) : Nat :=
  match d with
  | .static n => n
  | .dynamic _ => newId

/-- Association-list update preserving the position of an existing key. -/
def setAssoc (l : List (String × PrincipalInfo)) (k : String) (v : PrincipalInfo) :
    List (String × PrincipalInfo) :=
  if l.any (fun e => e.1 == k) then
    l.map (fun e => if e.1 == k then (k, v) else e)
  else l ++ [(k, v)]

/-- Decoded `PrincipalInfo` payload of an index write, with dynamic ids
resolved to the created document id. -/
def DVal.asPinfo (v : DVal) (newId : Nat) : Option PrincipalInfo :=
  match v with
  | .pinfo p => some p
  | .dynPinfo t ten => some ⟨newId, t, ten⟩
  | _ => none

/-- Modelled from the spec: the effect of one committed batch operation on a
store snapshot (the KV store itself is out of scope; this is the §4.B batch
semantics).  Assertions do not mutate; `newId` is the document id assigned
by `CreateDocument`. -/
def applyOp (s : Store) (newId : Nat) (op : Op) : Store :=
  match op with
  | .set (.principal d) v =>
    match v with
    | .principal p =>
      { s with principals := fun n => if n == d.resolve newId then some p else s.principals n }
    | .dynPrincipal p =>
      { s with principals := fun n =>
          if n == d.resolve newId then some { p with id := newId } else s.principals n }
    | _ => s
  | .set (.nameToId k) v =>
    match v.asPinfo newId with
    | some info => { s with names := setAssoc s.names k info }
    | none => s
  | .set (.emailToId k) v =>
    match v.asPinfo newId with
    | some info => { s with emails := setAssoc s.emails k info }
    | none => s
  | .set (.memberOf a b) v =>
    match v with
    | .bytes bs =>
      let key := (a.resolve newId, b.resolve newId)
      { s with memberOfEdges :=
          (s.memberOfEdges.filter (fun e => !(e.1 == key.1 && e.2.1 == key.2)))
            ++ [(key.1, key.2, bs)] }
    | _ => s
  | .set (.members a b) _ =>
    let key := (a.resolve newId, b.resolve newId)
    { s with membersEdges :=
        (s.membersEdges.filter (fun e => !(e == key))) ++ [key] }
  | .set (.usedQuota _) _ => s
  | .clear (.principal d) =>
    { s with principals := fun n => if n == d.resolve newId then none else s.principals n }
  | .clear (.nameToId k) => { s with names := s.names.filter (fun e => !(e.1 == k)) }
  | .clear (.emailToId k) => { s with emails := s.emails.filter (fun e => !(e.1 == k)) }
  | .clear (.memberOf a b) =>
    { s with memberOfEdges := (s.memberOfEdges.filter
        (fun e => !(e.1 == a.resolve newId && e.2.1 == b.resolve newId))) }
  | .clear (.members a b) =>
    { s with membersEdges := (s.membersEdges.filter
        (fun e => !(e == (a.resolve newId, b.resolve newId)))) }
  | .clear (.usedQuota i) =>
    { s with usedQuota := fun n => if n == i then 0 else s.usedQuota n }
  | .add (.usedQuota i) d =>
    { s with usedQuota := fun n => if n == i then s.usedQuota i + d else s.usedQuota n }
  | .add _ _ => s
  | .assertValue _ _ => s
  | .createDocument => s

/-- Sequential application of a committed batch to a store snapshot. -/
def applyOps (s : Store) (newId : Nat) (ops : List Op) : Store :=
  ops.foldl (fun acc op => applyOp acc newId op) s

/-- Effect of a mutator's outcome: an error commits nothing and leaves the
store unchanged; a success applies the one committed batch. -/
def applyOutcome (s : Store) (newId : Nat) (r : Except Err (List Op)) : Store :=
  match r with
  | .error _ => s
  | .ok ops => applyOps s newId ops

/-- Membership-edge symmetry of a batch: a forward edge write (or clear) for
a pair of ids is present exactly when the matching reverse edge write (or
clear) is present. -/
def Sym (ops : List Op) : Prop :=
  ∀ a b : DynId,
    ((∃ v, Op.set (.memberOf a b) v ∈ ops) ↔ (∃ v, Op.set (.members b a) v ∈ ops)) ∧
    (Op.clear (.memberOf a b) ∈ ops ↔ Op.clear (.members b a) ∈ ops)

theorem Sym_nil : Sym [] := by
  intro a b
  simp

theorem Sym_append {l₁ l₂ : List Op} (h₁ : Sym l₁) (h₂ : Sym l₂) : Sym (l₁ ++ l₂) := by
  intro a b
  obtain ⟨hs₁, hc₁⟩ := h₁ a b
  obtain ⟨hs₂, hc₂⟩ := h₂ a b
  constructor
  · simp only [List.mem_append, exists_or]
    exact or_congr hs₁ hs₂
  · simp only [List.mem_append]
    exact or_congr hc₁ hc₂

theorem Sym_edgeSetPair (x y : DynId) (t : PType) : Sym (edgeSetPair x y t) := by
  intro a b
  refine ⟨?_, ?_⟩ <;> simp [edgeSetPair] <;> tauto

theorem Sym_edgeClearPair (x y : DynId) : Sym (edgeClearPair x y) := by
  intro a b
  refine ⟨?_, ?_⟩ <;> simp [edgeClearPair] <;> tauto

/-- Batch operations that are neither membership-edge operations, nor value
assertions, nor principal-record writes: the operations a change may append
without affecting edge symmetry or the optimistic-lock bookkeeping. -/
def opBenign : Op → Bool
  | .set (.memberOf _ _) _ => false
  | .set (.members _ _) _ => false
  | .set (.principal _) _ => false
  | .assertValue _ _ => false
  | .clear (.memberOf _ _) => false
  | .clear (.members _ _) => false
  | _ => true

/-- Well-formedness of the operation segment appended by one change: the
segment is membership-symmetric and contains no assertion and no
principal-record write. -/
def segOK (seg : List Op) : Prop :=
  Sym seg ∧ ∀ op ∈ seg,
    (∀ k e, op ≠ Op.assertValue k e) ∧ (∀ i v, op ≠ Op.set (.principal i) v)

theorem segOK_nil : segOK [] := ⟨Sym_nil, by simp⟩

theorem segOK_append {l₁ l₂ : List Op} (h₁ : segOK l₁) (h₂ : segOK l₂) : segOK (l₁ ++ l₂) := by
  refine ⟨Sym_append h₁.1 h₂.1, ?_⟩
  intro op hop
  rcases List.mem_append.mp hop with h | h
  · exact h₁.2 op h
  · exact h₂.2 op h

theorem segOK_of_benign {seg : List Op} (h : ∀ op ∈ seg, opBenign op = true) : segOK seg := by
  constructor
  · intro a b
    constructor
    · constructor
      · rintro ⟨v, hv⟩
        have := h _ hv
        simp [opBenign] at this
      · rintro ⟨v, hv⟩
        have := h _ hv
        simp [opBenign] at this
    · constructor
      · intro hv
        have := h _ hv
        simp [opBenign] at this
      · intro hv
        have := h _ hv
        simp [opBenign] at this
  · intro op hop
    have hb := h _ hop
    constructor
    · intro k e hne
      subst hne
      simp [opBenign] at hb
    · intro i v hne
      subst hne
      simp [opBenign] at hb

theorem segOK_edgeSetPair (x y : DynId) (t : PType) : segOK (edgeSetPair x y t) := by
  refine ⟨Sym_edgeSetPair x y t, ?_⟩
  intro op hop
  simp only [edgeSetPair, List.mem_cons, List.not_mem_nil, or_false] at hop
  rcases hop with rfl | rfl <;>
    exact ⟨fun k e h => Op.noConfusion h,
           fun i v h => by injection h with hk hv; exact DKey.noConfusion hk⟩

theorem segOK_edgeClearPair (x y : DynId) : segOK (edgeClearPair x y) := by
  refine ⟨Sym_edgeClearPair x y, ?_⟩
  intro op hop
  simp only [edgeClearPair, List.mem_cons, List.not_mem_nil, or_false] at hop
  rcases hop with rfl | rfl <;>
    exact ⟨fun k e h => Op.noConfusion h, fun i v h => Op.noConfusion h⟩

theorem segOK_flatMapClear {α : Type} (l : List α) (f g : α → DynId) :
    segOK (l.flatMap (fun i => edgeClearPair (f i) (g i))) := by
  induction l with
  | nil => simpa using segOK_nil
  | cons x xs ih =>
    rw [List.flatMap_cons]
    exact segOK_append (segOK_edgeClearPair _ _) ih

theorem Sym_flatMapSetPair {α : Type} (l : List α) (f g : α → DynId) (t : α → PType) :
    Sym (l.flatMap (fun x => edgeSetPair (f x) (g x) (t x))) := by
  induction l with
  | nil => simpa using Sym_nil
  | cons x xs ih =>
    rw [List.flatMap_cons]
    exact Sym_append (Sym_edgeSetPair _ _ _) ih

/-- Batch operations touching neither membership-edge family. -/
def opNonMember : Op → Bool
  | .set (.memberOf _ _) _ => false
  | .set (.members _ _) _ => false
  | .clear (.memberOf _ _) => false
  | .clear (.members _ _) => false
  | _ => true

theorem Sym_of_nonMember {ops : List Op} (h : ∀ op ∈ ops, opNonMember op = true) : Sym ops := by
  intro a b
  constructor
  · constructor
    · rintro ⟨v, hv⟩
      have := h _ hv
      simp [opNonMember] at this
    · rintro ⟨v, hv⟩
      have := h _ hv
      simp [opNonMember] at this
  · constructor
    · intro hv
      have := h _ hv
      simp [opNonMember] at this
    · intro hv
      have := h _ hv
      simp [opNonMember] at this

theorem segOK_memberOfRemovals (pid : Nat) (old newIds : List Nat) :
    segOK (memberOfRemovals pid old newIds) :=
  segOK_flatMapClear _ (fun _ => .static pid) (fun i => .static i)

theorem segOK_membersRemovals (pid : Nat) (old newIds : List Nat) :
    segOK (membersRemovals pid old newIds) :=
  segOK_flatMapClear _ (fun i => .static i) (fun _ => .static pid)

theorem segOK_singleton_benign (op : Op) (h : opBenign op = true) : segOK [op] :=
  segOK_of_benign (by simpa using h)

theorem resolveMemberOfAdds_segOK {s : Store} {tid : Option Nat} {field : PrincipalField}
    {pid : Nat} {cur : List Nat} :
    ∀ {ms : List String} {ops : List Op} {ids : List Nat},
    resolveMemberOfAdds s tid field pid cur ms = .ok (ops, ids) → segOK ops := by
  intro ms
  induction ms with
  | nil =>
    intro ops ids h
    simp only [resolveMemberOfAdds, Except.ok.injEq, Prod.mk.injEq] at h
    obtain ⟨rfl, rfl⟩ := h
    exact segOK_nil
  | cons m rest ih =>
    intro ops ids h
    simp only [resolveMemberOfAdds] at h
    split at h
    · cases h
    · split at h
      · cases h
      · split at h
        · cases h
        · simp only [Except.ok.injEq, Prod.mk.injEq] at h
          obtain ⟨rfl, rfl⟩ := h
          refine segOK_append ?_ (ih (by assumption))
          split
          · exact segOK_nil
          · exact segOK_edgeSetPair _ _ _

theorem resolveMembersAdds_segOK {s : Store} {tid : Option Nat} {allowed : List PType}
    {pid : Nat} {cur : List Nat} :
    ∀ {ms : List String} {ops : List Op} {ids : List Nat},
    resolveMembersAdds s tid allowed pid cur ms = .ok (ops, ids) → segOK ops := by
  intro ms
  induction ms with
  | nil =>
    intro ops ids h
    simp only [resolveMembersAdds, Except.ok.injEq, Prod.mk.injEq] at h
    obtain ⟨rfl, rfl⟩ := h
    exact segOK_nil
  | cons m rest ih =>
    intro ops ids h
    simp only [resolveMembersAdds] at h
    split at h
    · cases h
    · split at h
      · cases h
      · split at h
        · cases h
        · simp only [Except.ok.injEq, Prod.mk.injEq] at h
          obtain ⟨rfl, rfl⟩ := h
          refine segOK_append ?_ (ih (by assumption))
          split
          · exact segOK_nil
          · exact segOK_edgeSetPair _ _ _

theorem setEmailAdds_benign {s : Store} {pe : PrincipalInfo} {cur : List String} :
    ∀ {es : List String} {ops : List Op},
    setEmailAdds s pe cur es = .ok ops → ∀ op ∈ ops, opBenign op = true := by
  intro es
  induction es with
  | nil =>
    intro ops h
    simp only [setEmailAdds, Except.ok.injEq] at h
    subst h
    simp
  | cons e rest ih =>
    intro ops h
    simp only [setEmailAdds] at h
    split at h
    · exact ih h
    · split at h
      · cases h
      · split at h
        · split at h
          · cases h
          · split at h
            · cases h
            · simp only [Except.ok.injEq] at h
              subst h
              intro op hop
              rcases List.mem_cons.mp hop with rfl | hop
              · rfl
              · exact ih (by assumption) op hop
        · split at h
          · cases h
          · simp only [Except.ok.injEq] at h
            subst h
            intro op hop
            rcases List.mem_cons.mp hop with rfl | hop
            · rfl
            · exact ih (by assumption) op hop

theorem benign_clearEmailOps (l : List String) :
    ∀ op ∈ l.map (fun e => Op.clear (.emailToId e)), opBenign op = true := by
  intro op hop
  obtain ⟨e, -, rfl⟩ := List.mem_map.mp hop
  rfl

set_option maxHeartbeats 2000000 in
theorem applyChange_segOK {s : Store} {tid : Option Nat} {pid : Nat} {uq : Option Int}
    {allowed : List PType} {pe : PrincipalInfo} {st st' : UpdState} {c : PrincipalUpdate}
    (h : applyChange s tid pid uq allowed pe st c = .ok st') :
    ∃ seg, st'.ops = st.ops ++ seg ∧ segOK seg := by
  unfold applyChange at h
  repeat' (first | split at h | dsimp only at h)
  all_goals try cases h
  all_goals
    first
    | exact ⟨[], (List.append_nil _).symm, segOK_nil⟩
    | exact ⟨_, rfl, segOK_edgeSetPair _ _ _⟩
    | exact ⟨_, rfl, segOK_edgeClearPair _ _⟩
    | exact ⟨_, rfl, segOK_of_benign (by simp [opBenign])⟩
    | exact ⟨_, List.append_assoc _ _ _,
        segOK_append (segOK_of_benign (setEmailAdds_benign (by assumption)))
          (segOK_of_benign (benign_clearEmailOps _))⟩
    | exact ⟨_, List.append_assoc _ _ _,
        segOK_append (resolveMemberOfAdds_segOK (by assumption)) (segOK_memberOfRemovals _ _ _)⟩
    | exact ⟨_, List.append_assoc _ _ _,
        segOK_append (resolveMembersAdds_segOK (by assumption)) (segOK_membersRemovals _ _ _)⟩
    | exact ⟨_, List.append_assoc _ _ _,
        segOK_append (segOK_of_benign (by simp [opBenign])) (segOK_of_benign (by simp [opBenign]))⟩

theorem processChanges_segOK {s : Store} {tid : Option Nat} {pid : Nat} {uq : Option Int}
    {allowed : List PType} {pe : PrincipalInfo} :
    ∀ {cs : List PrincipalUpdate} {st st' : UpdState},
    processChanges s tid pid uq allowed pe st cs = .ok st' →
    ∃ seg, st'.ops = st.ops ++ seg ∧ segOK seg := by
  intro cs
  induction cs with
  | nil =>
    intro st st' h
    simp only [processChanges, Except.ok.injEq] at h
    subst h
    exact ⟨[], (List.append_nil _).symm, segOK_nil⟩
  | cons c rest ih =>
    intro st st' h
    simp only [processChanges] at h
    split at h
    · cases h
    · rename_i st₁ heq
      obtain ⟨seg₁, hops₁, hok₁⟩ := applyChange_segOK heq
      obtain ⟨seg₂, hops₂, hok₂⟩ := ih h
      exact ⟨seg₁ ++ seg₂, by rw [hops₂, hops₁, List.append_assoc], segOK_append hok₁ hok₂⟩

theorem nonMember_mapEmailSet (l : List String) (t : PType) :
    ∀ op ∈ l.map (fun e => Op.set (.emailToId e) (.dynPinfo t none)), opNonMember op = true := by
  intro op hop
  obtain ⟨e, -, rfl⟩ := List.mem_map.mp hop
  rfl

theorem nonMember_mapEmailClear (l : List String) :
    ∀ op ∈ l.map (fun e => Op.clear (.emailToId e)), opNonMember op = true := by
  intro op hop
  obtain ⟨e, -, rfl⟩ := List.mem_map.mp hop
  rfl

/-- C1: every committed batch of `create_principal`, `update_principal` and
`delete_principal` is membership-symmetric: for every pair of ids, a forward
`MemberOf` edge write (or clear) occurs in the batch exactly when the
matching reverse `Members` entry write (or clear) occurs in the same
batch. -/
theorem spec_c1 (s : Store) :
    (∀ req tid ops, createPrincipal s req tid = .ok ops → Sym ops) ∧
    (∀ qb changes tid ops, updatePrincipal s qb changes tid = .ok ops → Sym ops) ∧
    (∀ qb ops, deletePrincipal s qb = .ok ops → Sym ops) := by
  refine ⟨?_, ?_, ?_⟩
  · intro req tid ops h
    unfold createPrincipal at h
    repeat' (first | split at h | dsimp only at h)
    all_goals try cases h
    all_goals
      refine Sym_append (Sym_append (Sym_append
        (Sym_of_nonMember (by simp [opNonMember]))
        (Sym_of_nonMember (nonMember_mapEmailSet _ _)))
        (Sym_flatMapSetPair _ _ _ _)) (Sym_flatMapSetPair _ _ _ _)
  · intro qb changes tid ops h
    unfold updatePrincipal at h
    repeat' (first | split at h | dsimp only at h)
    all_goals try cases h
    all_goals {
      obtain ⟨seg, hseg, hok⟩ := processChanges_segOK (by assumption)
      refine Sym_append (Sym_append ?_ ?_) ?_
      · first
        | exact Sym_nil
        | exact Sym_of_nonMember (by simp [opNonMember])
      · rw [hseg]
        simpa using hok.1
      · first
        | exact Sym_nil
        | exact Sym_of_nonMember (by simp [opNonMember]) }
  · intro qb ops h
    unfold deletePrincipal at h
    repeat' (first | split at h | dsimp only at h)
    all_goals try cases h
    all_goals
      refine Sym_append (Sym_append (Sym_append (Sym_append
        ?_
        (Sym_of_nonMember (by simp [opNonMember])))
        (Sym_of_nonMember (nonMember_mapEmailClear _)))
        ((segOK_flatMapClear _ _ _).1)) ((segOK_flatMapClear _ _ _).1)
    all_goals first
      | exact Sym_nil
      | exact Sym_of_nonMember (by simp [opNonMember])

/-- Store used by the witnesses of the membership-symmetry and
optimistic-lock theorems: one individual `u` (id 1, tenant 10) that is a
member of group `g` (id 2, tenant 20). -/
def storeC1 : Store := {
  names := [("g", ⟨2, .group, some 20⟩), ("u", ⟨1, .individual, some 10⟩)]
  principals := fun n =>
    if n == 1 then some { id := 1, typ := .individual, name := "u", tenant := some 10 } else none
  memberOfEdges := [(1, 2, [1])]
  membersEdges := [(2, 1)] }

/-- Witness for C1: the batch committed by deleting principal 1 of the
witness store is membership-symmetric. -/
theorem spec_c1_witness :
    Sym [Op.clear (.nameToId "u"), Op.clear (.principal (.static 1)), Op.clear (.usedQuota 1),
         Op.clear (.memberOf (.static 1) (.static 2)), Op.clear (.members (.static 2) (.static 1))] :=
  (spec_c1 storeC1).2.2 (.id 1) _ rfl

/-- C2: on every successful `update_principal` call with a non-empty change
list, the committed batch contains the optimistic-lock assertion
`AssertValue(Principal(id), loadedHashedPrincipal)` exactly when some change
targets a field other than the four membership fields, and the batch writes
a principal value back under the same `Principal(id)` key exactly under the
same condition. -/
theorem spec_c2 {s : Store} {qb : QueryBy} {changes : List PrincipalUpdate} {tid : Option Nat}
    {ops : List Op} {pid : Nat} {p : Principal}
    (hres : resolveById s qb = .ok pid) (hp : s.principals pid = some p)
    (hok : updatePrincipal s qb changes tid = .ok ops) (hne : changes ≠ []) :
    ((Op.assertValue (.principal (.static pid)) (.hashed p) ∈ ops) ↔ needLock changes = true) ∧
    ((∃ v, Op.set (.principal (.static pid)) v ∈ ops) ↔ needLock changes = true) := by
  unfold updatePrincipal at hok
  rw [hres] at hok
  dsimp only at hok
  rw [hp] at hok
  dsimp only at hok
  split at hok
  · cases hok
  · rename_i st heq
    obtain ⟨seg, hseg, hsegOK⟩ := processChanges_segOK heq
    simp only [Except.ok.injEq] at hok
    subst hok
    cases hlock : needLock changes with
    | true =>
      simp only [hlock, if_true]
      constructor
      · constructor
        · intro _
          trivial
        · intro _
          simp
      · constructor
        · intro _
          trivial
        · intro _
          exact ⟨.principal st.principal, by simp⟩
    | false =>
      simp only [hlock, Bool.false_eq_true, if_false, List.nil_append, List.append_nil]
      have hops : st.ops = seg := by simpa using hseg
      constructor
      · constructor
        · intro hmem
          rw [hops] at hmem
          exact absurd rfl ((hsegOK.2 _ hmem).1 _ _)
        · intro hfalse
          cases hfalse
      · constructor
        · rintro ⟨v, hv⟩
          rw [hops] at hv
          exact absurd rfl ((hsegOK.2 _ hv).2 _ _)
        · intro hfalse
          cases hfalse
    
/-- Witness for C2: updating the description of principal 1 in the witness
store arms the optimistic lock and writes the principal back. -/
theorem spec_c2_witness :
    ((Op.assertValue (.principal (.static 1))
        (.hashed { id := 1, typ := .individual, name := "u", tenant := some 10 }) ∈
      [Op.assertValue (.principal (.static 1))
          (.hashed { id := 1, typ := .individual, name := "u", tenant := some 10 }),
       Op.set (.principal (.static 1))
          (.principal { id := 1, typ := .individual, name := "u", tenant := some 10,
                        description := some "x" })]) ↔
      needLock [⟨.set, .description, .string "x"⟩] = true) ∧
    ((∃ v, Op.set (.principal (.static 1)) v ∈
      [Op.assertValue (.principal (.static 1))
          (.hashed { id := 1, typ := .individual, name := "u", tenant := some 10 }),
       Op.set (.principal (.static 1))
          (.principal { id := 1, typ := .individual, name := "u", tenant := some 10,
                        description := some "x" })]) ↔
      needLock [⟨.set, .description, .string "x"⟩] = true) :=
  @spec_c2 storeC1 (.id 1) [⟨.set, .description, .string "x"⟩] none
    [Op.assertValue (.principal (.static 1))
        (.hashed { id := 1, typ := .individual, name := "u", tenant := some 10 }),
     Op.set (.principal (.static 1))
        (.principal { id := 1, typ := .individual, name := "u", tenant := some 10,
                      description := some "x" })]
    1 { id := 1, typ := .individual, name := "u", tenant := some 10 }
    rfl rfl rfl (by simp)

/-- Counterexample for C3: under tenant scope 10, a `RemoveItem MemberOf`
change referencing principal `g` of tenant 20 succeeds and clears the edge
pair, instead of failing `NotFound` as the claim requires for every change
kind. -/
theorem spec_c3_counterexample :
    Store.getPrincipalInfo storeC1 "g" = some ⟨2, .group, some 20⟩ ∧
    PrincipalInfo.hasTenantAccess ⟨2, .group, some 20⟩ (some 10) = false ∧
    updatePrincipal storeC1 (.id 1) [⟨.removeItem, .memberOf, .string "g"⟩] (some 10)
      = .ok [.clear (.memberOf (.static 1) (.static 2)),
             .clear (.members (.static 2) (.static 1))] :=
  ⟨rfl, rfl, rfl⟩

/-- C3 (amended): under tenant scope `T`, `Set` and `AddItem` changes on the
membership fields resolve their referenced principal through the tenant
filter and fail `NotFound` (hence commit nothing) when that principal lacks
tenant access and is not a built-in role name; `RemoveItem` changes,
however, resolve by plain id lookup with no tenant check (see the
counterexample). -/
theorem spec_c3_amended {s : Store} {T pid : Nat} {uq : Option Int} {allowed : List PType}
    {pe : PrincipalInfo} {st : UpdState} {m : String} {info : PrincipalInfo}
    (hinfo : s.getPrincipalInfo m = some info)
    (hacc : info.hasTenantAccess (some T) = false) :
    (∀ f, (f = PrincipalField.memberOf ∨ f = PrincipalField.lists ∨ f = PrincipalField.roles) →
      f.mapInternalRoleName m = none →
      applyChange s (some T) pid uq allowed pe st ⟨.addItem, f, .string m⟩
        = .error (.notFound m) ∧
      applyChange s (some T) pid uq allowed pe st ⟨.set, f, .stringList [m]⟩
        = .error (.notFound m)) ∧
    (applyChange s (some T) pid uq allowed pe st ⟨.addItem, .members, .string m⟩
        = .error (.notFound m) ∧
     applyChange s (some T) pid uq allowed pe st ⟨.set, .members, .stringList [m]⟩
        = .error (.notFound m)) := by
  have hroles : ∀ f : PrincipalField, f.mapInternalRoleName m = none →
      f.mapInternalRoles m = none := by
    intro f hf
    simp [PrincipalField.mapInternalRoles, hf]
  constructor
  · intro f hf hrole
    rcases hf with rfl | rfl | rfl <;>
      exact ⟨by simp [applyChange, hinfo, hacc, Option.filter, Option.orElse, hroles _ hrole],
             by simp [applyChange, resolveMemberOfAdds, hinfo, hacc, Option.filter,
                      Option.orElse, hroles _ hrole]⟩
  · exact ⟨by simp [applyChange, hinfo, hacc, Option.filter],
           by simp [applyChange, resolveMembersAdds, hinfo, hacc, Option.filter]⟩

/-- Witness for the amended C3: adding cross-tenant group `g` to principal 1
under tenant scope 10 fails `NotFound`. -/
theorem spec_c3_amended_witness :
    applyChange storeC1 (some 10) 1 none [] ⟨1, .individual, none⟩
      ⟨{ id := 1, typ := .individual, name := "u", tenant := some 10 }, [2], [],
        ⟨1, .individual, some 10⟩, [], []⟩
      ⟨.addItem, .memberOf, .string "g"⟩ = .error (.notFound "g") :=
  ((@spec_c3_amended storeC1 10 1 none [] ⟨1, .individual, none⟩
    ⟨{ id := 1, typ := .individual, name := "u", tenant := some 10 }, [2], [],
      ⟨1, .individual, some 10⟩, [], []⟩
    "g" ⟨2, .group, some 20⟩ rfl rfl).1 .memberOf (Or.inl rfl) rfl).1

theorem getOrCreateLoop_spec (name : String) (typ : PType) (lookups : Nat → Option Nat)
    (commits : List Op → Nat → Except StoreErr Nat) :
    ∀ fuel t, 4 - t = fuel → t ≤ 3 →
    t ≤ (getOrCreateLoop name typ lookups commits t).2 ∧
    (getOrCreateLoop name typ lookups commits t).2 ≤ 4 ∧
    (∀ j, t ≤ j → j + 1 < (getOrCreateLoop name typ lookups commits t).2 →
      ∃ tag, commits (getOrCreateBatch name typ) j = .error ⟨true, tag⟩) ∧
    (∀ e, (getOrCreateLoop name typ lookups commits t).1 = .error e →
      commits (getOrCreateBatch name typ) ((getOrCreateLoop name typ lookups commits t).2 - 1)
        = .error e ∧
      (e.isAssert = true → (getOrCreateLoop name typ lookups commits t).2 = 4)) ∧
    (∀ i, (getOrCreateLoop name typ lookups commits t).1 = .ok i →
      lookups (getOrCreateLoop name typ lookups commits t).2 = some i ∨
      commits (getOrCreateBatch name typ) ((getOrCreateLoop name typ lookups commits t).2 - 1)
        = .ok i) := by
  intro fuel
  induction fuel with
  | zero =>
    intro t hfuel ht
    omega
  | succ n ih =>
    intro t hfuel ht
    rw [getOrCreateLoop]
    split
    · rename_i i hi
      refine ⟨le_refl _, by omega, ?_, ?_, ?_⟩
      · intro j hj hlt
        omega
      · intro e he
        cases he
      · intro i' hi'
        cases hi'
        exact Or.inl hi
    · split
      · rename_i i hc
        refine ⟨by omega, by omega, ?_, ?_, ?_⟩
        · intro j hj hlt
          omega
        · intro e he
          cases he
        · intro i' hi'
          cases hi'
          exact Or.inr (by simpa using hc)
      · rename_i e hc
        split
        · rename_i hcond
          have hassert : e.isAssert = true := (Bool.and_eq_true _ _ ▸ hcond).1
          have hlt3 : t < 3 := of_decide_eq_true (Bool.and_eq_true _ _ ▸ hcond).2
          obtain ⟨h1, h2, h3, h4, h5⟩ :=
            ih (t + 1) (by omega) (by omega)
          refine ⟨by omega, h2, ?_, h4, h5⟩
          intro j hj hlt
          rcases Nat.lt_or_ge j (t + 1) with hj1 | hj1
          · have hjt : j = t := by omega
            subst hjt
            refine ⟨e.tag, ?_⟩
            have : e = ⟨true, e.tag⟩ := by
              cases e with
              | mk a b =>
                cases hassert
                rfl
            rw [← this]
            exact hc
          · exact h3 j hj1 hlt
        · rename_i hcond
          refine ⟨by omega, by omega, ?_, ?_, ?_⟩
          · intro j hj hlt
            omega
          · intro e' he'
            cases he'
            refine ⟨by simpa using hc, ?_⟩
            intro hassert
            have : ¬(e.isAssert && decide (t < 3)) = true := hcond
            simp [hassert] at this
            omega
          · intro i hi
            cases hi

/-- C4: `get_or_create_principal_id` returns the existing id when the
`NameToId` lookup hits; otherwise it commits the create batch (asserting the
name absent and creating the principal), retrying from the lookup only when
the commit fails with an assertion failure, for at most 4 commit attempts in
total; a non-assertion error is returned at once, and an assertion failure
is returned only on the fourth attempt.  The two oracles give the outcome of
the lookup and of the commit at each iteration of the concurrently evolving
store. -/
theorem spec_c4 (name : String) (typ : PType) (lookups : Nat → Option Nat)
    (commits : List Op → Nat → Except StoreErr Nat) :
    (∀ i, lookups 0 = some i →
      getOrCreatePrincipalId name typ lookups commits = (.ok i, 0)) ∧
    (getOrCreatePrincipalId name typ lookups commits).2 ≤ 4 ∧
    (∀ j, j + 1 < (getOrCreatePrincipalId name typ lookups commits).2 →
      ∃ tag, commits (getOrCreateBatch (lowerStr name) typ) j = .error ⟨true, tag⟩) ∧
    (∀ e, (getOrCreatePrincipalId name typ lookups commits).1 = .error e →
      commits (getOrCreateBatch (lowerStr name) typ)
          ((getOrCreatePrincipalId name typ lookups commits).2 - 1) = .error e ∧
      (e.isAssert = true → (getOrCreatePrincipalId name typ lookups commits).2 = 4)) ∧
    (∀ i, (getOrCreatePrincipalId name typ lookups commits).1 = .ok i →
      lookups (getOrCreatePrincipalId name typ lookups commits).2 = some i ∨
      commits (getOrCreateBatch (lowerStr name) typ)
          ((getOrCreatePrincipalId name typ lookups commits).2 - 1) = .ok i) := by
  obtain ⟨h1, h2, h3, h4, h5⟩ :=
    getOrCreateLoop_spec (lowerStr name) typ lookups commits 4 0 rfl (by omega)
  refine ⟨?_, h2, fun j => h3 j (Nat.zero_le j), h4, h5⟩
  intro i hi
  unfold getOrCreatePrincipalId
  rw [getOrCreateLoop, hi]

/-- Lookup oracle for the C4 witness: the name never appears. -/
def c4Lookups : Nat → Option Nat := fun _ => none

/-- Commit oracle for the C4 witness: every commit fails with an assertion
failure tagged by the attempt number. -/
def c4Commits : List Op → Nat → Except StoreErr Nat := fun _ k => .error ⟨true, k⟩

/-- Witness for C4: with every commit losing the uniqueness race, the loop
stops after exactly 4 attempts and every non-final attempt was an assertion
failure. -/
theorem spec_c4_witness :
    (getOrCreatePrincipalId "A" .individual c4Lookups c4Commits).2 ≤ 4 ∧
    (∃ tag, c4Commits (getOrCreateBatch (lowerStr "A") .individual) 2
      = .error ⟨true, tag⟩) := by
  have h := spec_c4 "A" .individual c4Lookups c4Commits
  refine ⟨h.2.1, h.2.2.1 2 ?_⟩
  have hr : getOrCreatePrincipalId "A" .individual c4Lookups c4Commits
      = (.error ⟨true, 3⟩, 4) := by
    unfold getOrCreatePrincipalId
    rw [getOrCreateLoop]
    rw [getOrCreateLoop]
    rw [getOrCreateLoop]
    rw [getOrCreateLoop]
    simp [c4Lookups, c4Commits]
  rw [hr]
  omega

theorem listPrincipals_none_mem {s : Store} {T : Nat} {e : String × PrincipalInfo}
    (he : e ∈ s.names) (hacc : e.2.hasTenantAccess (some T) = true) :
    ∃ l, listPrincipals s none none (some T) = .ok l ∧ e.1 ∈ l := by
  refine ⟨_, by unfold listPrincipals; rfl, ?_⟩
  refine List.mem_map.mpr ⟨(e.2.id, e.1), List.mem_filterMap.mpr ⟨e, he, ?_⟩, rfl⟩
  simp [hacc]

/-- C5: deleting a `Tenant` principal while some principal carries its
tenant id fails with the `Tenant has members` error, whose reason samples at
most five member names plus an `and N others` overflow count, and the store
is left unchanged (an error commits no batch). -/
theorem spec_c5 {s : Store} {pid : Nat} {p : Principal}
    (hp : s.principals pid = some p) (htyp : p.typ = .tenant)
    (hmem : ∃ e ∈ s.names, e.2.tenant = some p.id) :
    ∃ tenantMembers, listPrincipals s none none (some p.id) = .ok tenantMembers ∧
      tenantMembers ≠ [] ∧
      deletePrincipal s (.id pid) = .error (.error "Tenant has members"
        (some ("Tenant must have no members to be deleted: Found: "
          ++ tenantMembersSample tenantMembers))) ∧
      applyOutcome s 0 (deletePrincipal s (.id pid)) = s ∧
      (tenantMembers.length ≤ 5 →
        tenantMembersSample tenantMembers = String.intercalate ", " tenantMembers) ∧
      (5 < tenantMembers.length →
        tenantMembersSample tenantMembers =
          String.intercalate ", " (tenantMembers.take 5) ++ " and "
            ++ toString (tenantMembers.length - 5) ++ " others") := by
  obtain ⟨e, he, het⟩ := hmem
  obtain ⟨l, hlist, hmem1⟩ :=
    listPrincipals_none_mem (T := p.id) he (by simp [PrincipalInfo.hasTenantAccess, het])
  have hne : l ≠ [] := by
    intro hnil
    rw [hnil] at hmem1
    cases hmem1
  have hie : l.isEmpty = false := by
    cases l with
    | nil => exact absurd rfl hne
    | cons a as => rfl
  have hdel : deletePrincipal s (.id pid) = .error (.error "Tenant has members"
      (some ("Tenant must have no members to be deleted: Found: "
        ++ tenantMembersSample l))) := by
    unfold deletePrincipal
    dsimp only [resolveById]
    rw [hp]
    dsimp only
    rw [htyp]
    dsimp only
    rw [hlist]
    dsimp only
    rw [hie]
    rfl
  refine ⟨l, hlist, hne, hdel, by rw [hdel]; rfl, ?_, ?_⟩
  · intro h
    unfold tenantMembersSample
    rw [if_neg (by omega)]
  · intro h
    unfold tenantMembersSample
    rw [if_pos h]

/-- Store for the C5 witness: tenant `t` (id 3) with one member `a`. -/
def storeC5 : Store := {
  names := [("a", ⟨5, .individual, some 3⟩), ("t", ⟨3, .tenant, none⟩)]
  principals := fun n => if n == 3 then some { id := 3, typ := .tenant, name := "t" } else none }

/-- Witness for C5: deleting tenant 3 of the witness store fails with the
sampled `Tenant has members` error and leaves the store unchanged. -/
theorem spec_c5_witness :
    ∃ tenantMembers,
      listPrincipals storeC5 none none
          (some (Principal.id { id := 3, typ := .tenant, name := "t" })) = .ok tenantMembers ∧
      tenantMembers ≠ [] ∧
      deletePrincipal storeC5 (.id 3) = .error (.error "Tenant has members"
        (some ("Tenant must have no members to be deleted: Found: "
          ++ tenantMembersSample tenantMembers))) ∧
      applyOutcome storeC5 0 (deletePrincipal storeC5 (.id 3)) = storeC5 ∧
      (tenantMembers.length ≤ 5 →
        tenantMembersSample tenantMembers = String.intercalate ", " tenantMembers) ∧
      (5 < tenantMembers.length →
        tenantMembersSample tenantMembers =
          String.intercalate ", " (tenantMembers.take 5) ++ " and "
            ++ toString (tenantMembers.length - 5) ++ " others") :=
  @spec_c5 storeC5 3 { id := 3, typ := .tenant, name := "t" } rfl rfl
    ⟨("a", ⟨5, .individual, some 3⟩), by simp [storeC5], rfl⟩

/-- Counterexample for C6: the claim allows any quota vector of length up to
`|Type| + 1 = 10` on a tenant, but the code's guard is
`Type::Other as usize + 1 = 7`: a vector of length 8 on tenant principal 3
yields `NotSupported` even though `8 ≤ 9 + 1` (there are 9 principal
types). -/
theorem spec_c6_counterexample :
    List.length [0, 0, 0, 0, 0, 0, 0, 0] ≤ 9 + 1 ∧
    Principal.typ { id := 3, typ := .tenant, name := "t" } = .tenant ∧
    updatePrincipal storeC5 (.id 3)
        [⟨.set, .quota, .integerList [0, 0, 0, 0, 0, 0, 0, 0]⟩] none
      = .error .notSupported :=
  ⟨by decide, rfl, rfl⟩

/-- C6 (amended): `(Set, Quota, IntegerList qs)` succeeds — storing `qs` as
the per-type quota vector in the written-back principal — exactly when the
target principal's type is `Tenant` and `qs` has length at most
`Type::Other as usize + 1` (7 under the spec's type ordering); every other
combination of principal type and list length yields `NotSupported`. -/
theorem spec_c6_amended {s : Store} {pid : Nat} {p : Principal} {qs : List Nat}
    (hp : s.principals pid = some p) :
    (p.typ = .tenant ∧ qs.length ≤ PType.other.toNat + 1 →
      updatePrincipal s (.id pid) [⟨.set, .quota, .integerList qs⟩] none
        = .ok [.assertValue (.principal (.static pid)) (.hashed p),
               .set (.principal (.static pid)) (.principal { p with quota := .list qs })]) ∧
    (¬(p.typ = .tenant ∧ qs.length ≤ PType.other.toNat + 1) →
      updatePrincipal s (.id pid) [⟨.set, .quota, .integerList qs⟩] none
        = .error .notSupported) := by
  constructor
  · rintro ⟨ht, hl⟩
    unfold updatePrincipal
    dsimp only [resolveById]
    rw [hp]
    dsimp only
    unfold processChanges applyChange
    dsimp only
    rw [if_pos (by simp [ht, hl])]
    unfold processChanges
    dsimp only [needLock]
    simp
  · intro hneg
    unfold updatePrincipal
    dsimp only [resolveById]
    rw [hp]
    dsimp only
    unfold processChanges applyChange
    dsimp only
    rw [if_neg (by simpa using hneg)]

/-- Witness for the amended C6: on tenant principal 3, a 7-entry vector is
stored while an 8-entry vector is rejected. -/
theorem spec_c6_amended_witness :
    updatePrincipal storeC5 (.id 3) [⟨.set, .quota, .integerList [1, 2, 3, 4, 5, 6, 7]⟩] none
      = .ok [.assertValue (.principal (.static 3))
               (.hashed { id := 3, typ := .tenant, name := "t" }),
             .set (.principal (.static 3))
               (.principal { id := 3, typ := .tenant, name := "t",
                             quota := .list [1, 2, 3, 4, 5, 6, 7] })] ∧
    updatePrincipal storeC5 (.id 3) [⟨.set, .quota, .integerList [1, 2, 3, 4, 5, 6, 7, 8]⟩] none
      = .error .notSupported :=
  ⟨(@spec_c6_amended storeC5 3 { id := 3, typ := .tenant, name := "t" }
      [1, 2, 3, 4, 5, 6, 7] rfl).1 ⟨rfl, by decide⟩,
   (@spec_c6_amended storeC5 3 { id := 3, typ := .tenant, name := "t" }
      [1, 2, 3, 4, 5, 6, 7, 8] rfl).2 (by decide)⟩

/-- Removal condition of the `RemoveItem Secrets` change as the claim states
it: app-password or OTP-auth strings remove every secret equal to them or
carrying them as a prefix; the empty string removes every plain password;
any other string removes exact matches only. -/
def secretMatchesRemoval (sec v : String) : Bool :=
  if isAppPassword sec || isOtpAuth sec then v == sec || strStartsWith v sec
  else if sec == "" then isPassword v
  else v == sec

/-- C7: a `(RemoveItem, Secrets, String sec)` change always succeeds,
appends no batch operation, and replaces the secrets list by the secrets
not matched by the claim's removal condition, keeping all other secrets in
their original order. -/
theorem spec_c7 (s : Store) (tid : Option Nat) (pid : Nat) (uq : Option Int)
    (allowed : List PType) (pe : PrincipalInfo) (st : UpdState) (sec : String) :
    applyChange s tid pid uq allowed pe st ⟨.removeItem, .secrets, .string sec⟩
      = .ok { st with principal := { st.principal with
          secrets := st.principal.secrets.filter (fun v => !(secretMatchesRemoval sec v)) } } := by
  unfold applyChange
  dsimp only
  by_cases h1 : (isAppPassword sec || isOtpAuth sec) = true
  · rw [if_pos h1]
    rw [List.filter_congr (fun v _ => ?_)]
    simp [secretMatchesRemoval, h1, Bool.not_or]
  · rw [if_neg h1]
    by_cases h2 : (sec == "") = true
    · rw [if_neg (by simp [h2])]
      rw [List.filter_congr (fun v _ => ?_)]
      simp [secretMatchesRemoval, h1, h2]
    · rw [if_pos (by simp [Bool.not_eq_true] at h2 ⊢; exact h2)]
      rw [List.filter_congr (fun v _ => ?_)]
      simp [secretMatchesRemoval, h1, h2]

/-- C8: behavior of a `(Set, Name, String n)` change at the start of a call
(no domain validated yet).  With `n` lowercased: a name equal to the current
one is a complete no-op; under a tenant scope the domain part must resolve
to an accessible `Domain` principal or the change fails with the
invalid-domain error; a taken `NameToId` entry fails `AlreadyExists`; and on
success the batch clears the old `NameToId` entry and writes the new one
with the principal's `PrincipalInfo` payload. -/
theorem spec_c8 {s : Store} {tid : Option Nat} {pid : Nat} {uq : Option Int}
    {allowed : List PType} {pe : PrincipalInfo} {st : UpdState} {n : String}
    (hvd : st.validDomains = []) :
    ((lowerStr n) = st.principal.name →
      applyChange s tid pid uq allowed pe st ⟨.set, .name, .string n⟩ = .ok st) ∧
    (∀ T, tid = some T → (lowerStr n) ≠ st.principal.name →
      (∀ d, domainPart (lowerStr n) = some d →
        ((s.getPrincipalInfo d).filter
          (fun v => v.typ == PType.domain && v.hasTenantAccess (some T))).isSome = false) →
      applyChange s tid pid uq allowed pe st ⟨.set, .name, .string n⟩
        = .error (.error "Invalid principal name"
            (some "Principal name must include a valid domain"))) ∧
    ((tid = none ∨ ∃ T d, tid = some T ∧ domainPart (lowerStr n) = some d ∧
        ((s.getPrincipalInfo d).filter
          (fun v => v.typ == PType.domain && v.hasTenantAccess (some T))).isSome = true) →
      (lowerStr n) ≠ st.principal.name →
      ((s.getPrincipalId (lowerStr n)).isSome = true →
        applyChange s tid pid uq allowed pe st ⟨.set, .name, .string n⟩
          = .error (.alreadyExists .name (lowerStr n))) ∧
      (s.getPrincipalId (lowerStr n) = none →
        ∃ vd, applyChange s tid pid uq allowed pe st ⟨.set, .name, .string n⟩
          = .ok { st with
              principal := { st.principal with name := lowerStr n }
              validDomains := vd
              ops := st.ops ++ [.clear (.nameToId st.principal.name),
                                .set (.nameToId (lowerStr n)) (.pinfo st.pinfoName)] })) := by
  unfold applyChange
  dsimp only
  refine ⟨?_, ?_, ?_⟩
  · intro h
    rw [if_pos (by simp [h])]
  · intro T hT hne hdom
    subst hT
    have hcond : (st.principal.name == lowerStr n) = false := by
      simp
      exact fun hh => hne hh.symm
    cases hd : domainPart (lowerStr n) with
    | none => simp [hcond, hd, hvd]
    | some d => simp [hcond, hd, hdom d hd, hvd]
  · intro hpass hne
    have hcond : (st.principal.name == lowerStr n) = false := by
      simp
      exact fun hh => hne hh.symm
    rcases hpass with rfl | ⟨T, d, rfl, hd, hval⟩
    · constructor
      · intro hex
        simp [hcond, hex]
      · intro hnone
        refine ⟨st.validDomains, ?_⟩
        simp [hcond, hnone]
    · constructor
      · intro hex
        simp [hcond, hd, hval, hvd, hex]
      · intro hnone
        refine ⟨[d], ?_⟩
        simp [hcond, hd, hval, hvd, hnone]

/-- Witness for C8: renaming principal 1 of the witness store to the free
name `v` clears the old `NameToId` entry and writes the new one. -/
theorem spec_c8_witness :
    ∃ vd, applyChange storeC1 none 1 none [] ⟨1, .individual, none⟩
      ⟨{ id := 1, typ := .individual, name := "u", tenant := some 10 }, [2], [],
        ⟨1, .individual, some 10⟩, [], []⟩
      ⟨.set, .name, .string "v"⟩
      = .ok { principal := { id := 1, typ := .individual, name := "v", tenant := some 10 }
              memberOf := [2]
              members := []
              pinfoName := ⟨1, .individual, some 10⟩
              validDomains := vd
              ops := [.clear (.nameToId "u"), .set (.nameToId "v") (.pinfo ⟨1, .individual, some 10⟩)] } := by
  obtain ⟨vd, hv⟩ := ((@spec_c8 storeC1 none 1 none []
      ⟨1, .individual, none⟩
      ⟨{ id := 1, typ := .individual, name := "u", tenant := some 10 }, [2], [],
        ⟨1, .individual, some 10⟩, [], []⟩
      "v" rfl).2.2 (Or.inl rfl) (by decide)).2 (by rfl)
  refine ⟨vd, ?_⟩
  rw [hv]
  rfl

/-- Store for the C9 counterexample: a single tenant-less `Role`
principal. -/
def storeC9 : Store := { names := [("r", ⟨4, .role, none⟩)] }

/-- Counterexample for C9: under tenant scope 7, `list_principals` returns
the tenant-less role `r`, whose tenant id is not 7. -/
theorem spec_c9_counterexample :
    listPrincipals storeC9 none none (some 7) = .ok ["r"] ∧
    Store.getPrincipalInfo storeC9 "r" = some ⟨4, .role, none⟩ ∧
    (⟨4, .role, none⟩ : PrincipalInfo).tenant ≠ some 7 :=
  ⟨rfl, rfl, by decide⟩

theorem filterLoad_mem {s : Store} {toks : List String} :
    ∀ {l : List (Nat × String)} {out : List String},
    filterLoad s toks l = .ok out → ∀ {name : String}, name ∈ out →
    ∃ pid, (pid, name) ∈ l := by
  intro l
  induction l with
  | nil =>
    intro out h name hmem
    simp only [filterLoad, Except.ok.injEq] at h
    subst h
    cases hmem
  | cons e rest ih =>
    intro out h name hmem
    obtain ⟨pid, nm⟩ := e
    simp only [filterLoad] at h
    split at h
    · cases h
    · split at h
      · cases h
      · simp only [Except.ok.injEq] at h
        subst h
        split at hmem
        · rcases List.mem_cons.mp hmem with rfl | hmem2
          · exact ⟨pid, List.mem_cons_self _ _⟩
          · obtain ⟨pid', hp'⟩ := ih (by assumption) hmem2
            exact ⟨pid', List.mem_cons_of_mem _ hp'⟩
        · obtain ⟨pid', hp'⟩ := ih (by assumption) hmem
          exact ⟨pid', List.mem_cons_of_mem _ hp'⟩

theorem listScan_mem {s : Store} {typ : Option PType} {T : Nat} {pid : Nat} {name : String}
    (h : (pid, name) ∈ s.names.filterMap fun e =>
      if ((typ.map (fun t => e.2.typ == t)).getD true && e.2.hasTenantAccess (some T))
      then some (e.2.id, e.1) else none) :
    ∃ info, (name, info) ∈ s.names ∧
      (info.tenant = some T ∨ (info.typ = PType.role ∧ info.tenant = none)) := by
  obtain ⟨e, he, hfe⟩ := List.mem_filterMap.mp h
  by_cases hc : (((typ.map (fun t => e.2.typ == t)).getD true
      && e.2.hasTenantAccess (some T))) = true
  · rw [if_pos hc] at hfe
    injection hfe with hfe
    simp only [Prod.mk.injEq] at hfe
    obtain ⟨-, hname⟩ := hfe
    refine ⟨e.2, ?_, ?_⟩
    · rw [← hname]
      exact he
    · have hacc : e.2.hasTenantAccess (some T) = true := (Bool.and_eq_true _ _ ▸ hc).2
      unfold PrincipalInfo.hasTenantAccess at hacc
      simp only [Bool.or_eq_true, Bool.and_eq_true, beq_iff_eq] at hacc
      rcases hacc with h1 | ⟨h2, h3⟩
      · exact Or.inl h1
      · exact Or.inr ⟨h2, h3⟩
  · rw [if_neg hc] at hfe
    cases hfe

/-- C9 (amended): every name returned by `list_principals` under tenant
scope `T` belongs to a `NameToId` entry whose principal either has tenant id
`T` or is a tenant-less `Role` principal — the tenant filter deliberately
admits global roles, so not every returned principal has `tenant_id = T`
(see the counterexample). -/
theorem spec_c9_amended {s : Store} {filt : Option String} {typ : Option PType} {T : Nat}
    {names : List String} {name : String}
    (hlist : listPrincipals s filt typ (some T) = .ok names) (hmem : name ∈ names) :
    ∃ info, (name, info) ∈ s.names ∧
      (info.tenant = some T ∨ (info.typ = PType.role ∧ info.tenant = none)) := by
  unfold listPrincipals at hlist
  cases filt with
  | none =>
    dsimp only at hlist
    simp only [Except.ok.injEq] at hlist
    subst hlist
    obtain ⟨⟨pid, nm⟩, hp, hnm⟩ := List.mem_map.mp hmem
    dsimp only at hnm
    subst hnm
    exact listScan_mem hp
  | some f =>
    dsimp only at hlist
    obtain ⟨pid, hp⟩ := filterLoad_mem hlist hmem
    exact listScan_mem hp

/-- Witness for the amended C9: the role `r` returned under tenant scope 7
is a tenant-less role. -/
theorem spec_c9_amended_witness :
    ∃ info, ("r", info) ∈ storeC9.names ∧
      (info.tenant = some 7 ∨ (info.typ = PType.role ∧ info.tenant = none)) :=
  @spec_c9_amended storeC9 none none 7 ["r"] "r" rfl (by simp)

/-- C10 (implicit): `get_member_of` reports, for each stored `MemberOf`
edge, the peer id from the key and the type decoded from the first byte of
the stored value; an edge with an empty value (as written for
reverse-direction edges) is reported with type `Group` regardless of the
peer principal's actual type — the statement places no constraint on
`s.principals`. -/
theorem spec_c10 {s : Store} {a b : Nat} {bs : List Nat}
    (h : (a, b, bs) ∈ s.memberOfEdges) :
    (⟨b, (bs.head?.map PType.fromU8).getD PType.group⟩ : MemberOfEntry) ∈ s.getMemberOf a ∧
    (bs = [] → (⟨b, PType.group⟩ : MemberOfEntry) ∈ s.getMemberOf a) := by
  have hmem : (⟨b, (bs.head?.map PType.fromU8).getD PType.group⟩ : MemberOfEntry)
      ∈ s.getMemberOf a := by
    unfold Store.getMemberOf
    exact List.mem_filterMap.mpr ⟨(a, b, bs), h, by simp⟩
  refine ⟨hmem, ?_⟩
  intro hnil
  subst hnil
  exact hmem

/-- Store for the C10 witness: principal 2 is an `Individual`, yet the
empty-valued edge `MemberOf(1, 2)` is reported with type `Group`. -/
def storeC10 : Store := {
  principals := fun n => if n == 2 then some { id := 2, typ := .individual, name := "i" } else none
  memberOfEdges := [(1, 2, [])] }

/-- Witness for C10: the peer's record says `Individual`, but the
empty-valued edge is reported as `Group`. -/
theorem spec_c10_witness :
    (storeC10.principals 2).map Principal.typ = some PType.individual ∧
    (⟨2, PType.group⟩ : MemberOfEntry) ∈ storeC10.getMemberOf 1 :=
  ⟨rfl, (spec_c10 (by simp [storeC10])).2 rfl⟩

end Manage

deriving instance DecidableEq for Except
